import Mathlib

/-!
Shallow embedding of the ReceptionRoomTv player core (src/player.py).

The file system is modelled by the inductive FSEntry: a file with a name, or a
directory with a name, a readable flag (false means listing the directory
raises an OS error, e.g. a permission error) and a list of children in the
order iterdir yields them.  Paths are lists of components (VPath).  Fallible
operations return Except, mirroring Python exceptions.  Recursive directory
walks take a fuel argument so that every definition is structurally recursive
and kernel-evaluable; the public entry points pass the structural size of the
subtree, which always suffices (fuel drops by one per list node or descent,
and the size strictly dominates both).
-/

/-- Embeds Python name.startswith from player.py lines 47 and 77. -/
def startsWithDot (s : String) : Bool :=
  match s.data with
  | [] => false
  | c :: _ => c == '.'

/-- Embeds Python str.lower, codepoint by codepoint (inputs are ASCII). -/
def strLower (s : String) : String := ⟨s.data.map Char.toLower⟩

/-- Helper for Python substring containment: needle is a prefix of hay. -/
def isPrefixB : List Char → List Char → Bool
  | [], _ => true
  | _ :: _, [] => false
  | a :: as, b :: bs => a == b && isPrefixB as bs

/-- Helper for Python substring containment: needle occurs inside hay. -/
def isInfixB : List Char → List Char → Bool
  | ndl, [] => isPrefixB ndl []
  | ndl, c :: t => isPrefixB ndl (c :: t) || isInfixB ndl t

/-- Embeds the Python expression needle in hay on strings. -/
def strContainsB (hay needle : String) : Bool := isInfixB needle.data hay.data

/-- Index of the last dot in a list of characters (Python str.rfind). -/
def lastDotIdx : List Char → Option Nat
  | [] => none
  | c :: rest =>
    match lastDotIdx rest with
    | some i => some (i + 1)
    | none => if c == '.' then some 0 else none

/-- Embeds pathlib PurePath.suffix: the extension of the final component,
empty when the only dot is leading or trailing. -/
def pySuffix (s : String) : String :=
  match lastDotIdx s.data with
  | none => ""
  | some i => if 0 < i ∧ i < s.data.length - 1 then ⟨s.data.drop i⟩ else ""

/-- VALID_EXTENSIONS from player.py lines 25-30. -/
def VALID_EXTENSIONS : List String :=
  [".mp4", ".mkv", ".avi", ".flv", ".wmv", ".mov", ".webm", ".mpg", ".mpeg",
   ".m4v", ".3gp", ".3g2", ".f4v", ".m4p", ".mp2", ".mpe", ".mpv", ".m2v",
   ".vob", ".ogv", ".ogg", ".drc", ".gif", ".gifv", ".mng", ".qt", ".yuv",
   ".rm", ".rmvb", ".asf", ".amv", ".m2ts", ".ts", ".mts"]

/-- Embeds the file test of player.py line 82:
entry.suffix.lower() in VALID_EXTENSIONS. -/
def isVideoFile (name : String) : Bool :=
  VALID_EXTENSIONS.contains (strLower (pySuffix name))

/-- generic_names from player.py lines 55-62. -/
def generic_names : List String :=
  ["season", "disc", "extras", "specials", "bonus",
   "s01", "s02", "s03", "s04", "s05", "s06", "s07", "s08", "s09", "s10",
   "s11", "s12", "s13", "s14", "s15", "s16", "s17", "s18", "s19", "s20",
   "s21", "s22", "s23", "s24", "s25", "s26", "s27", "s28", "s29", "s30",
   "s31", "s32", "s33", "s34", "s35", "s36", "s37", "s38", "s39", "s40",
   "s41", "s42", "s43", "s44", "s45", "s46", "s47", "s48", "s49", "s50"]

/-- Embeds the test of player.py line 66:
any(generic in name.lower() for generic in generic_names). -/
def isGenericName (n : String) : Bool :=
  generic_names.any (fun g => strContainsB (strLower n) g)

/-- Lexicographic comparison of character lists by codepoint, mirrors Python
string comparison (used through the sort key of player.py line 85 and the
Path ordering of sorted on line 95). -/
def charListLeB : List Char → List Char → Bool
  | [], _ => true
  | _ :: _, [] => false
  | a :: as, b :: bs =>
    if a.toNat = b.toNat then charListLeB as bs
    else decide (a.toNat < b.toNat)

/-- Insert into a sorted list, keeping earlier elements first on ties
(stability of Python list.sort and sorted). -/
def orderedInsertB {α : Type} (le : α → α → Bool) (a : α) : List α → List α
  | [] => [a]
  | b :: l => if le a b then a :: b :: l else b :: orderedInsertB le a l

/-- Stable insertion sort, models Python list.sort / sorted. -/
def insertionSortB {α : Type} (le : α → α → Bool) : List α → List α
  | [] => []
  | a :: l => orderedInsertB le a (insertionSortB le l)

/-- A file-system entry: a file, or a directory with a readable flag (false
means listing it raises an OS error) and children in iterdir order. -/
inductive FSEntry : Type where
  | file (name : String)
  | dir (name : String) (readable : Bool) (children : List FSEntry)

mutual
/-- Structural size of a subtree, used as fuel by the public wrappers. -/
def entrySize : FSEntry → Nat
  | .file _ => 1
  | .dir _ _ cs => 1 + entryListSize cs
/-- Structural size of an entry list, used as fuel by the public wrappers. -/
def entryListSize : List FSEntry → Nat
  | [] => 1
  | c :: rest => 1 + entrySize c + entryListSize rest
end

/-- The name (final path component) of an entry. -/
def entryName : FSEntry → String
  | .file n => n
  | .dir n _ _ => n

/-- A path, as its list of components from the root. -/
abbrev VPath := List String

/-- Sort key of player.py line 85: the basename (Path.name). -/
def pathKey (p : VPath) : List Char := (p.getLastD "").data

/-- Comparison used for videos.sort(key=lambda x: x.name). -/
def pathLeB (p q : VPath) : Bool := charListLeB (pathKey p) (pathKey q)

/-- Comparison used for sorted(root_path.iterdir()): siblings compare by
their final component. -/
def entryLeB (e f : FSEntry) : Bool :=
  charListLeB (entryName e).data (entryName f).data

/-- Embeds the loop body of get_videos (player.py lines 74-83) over a list of
entries: hidden entries are skipped, directories are recursed into (the
recursive call is the whole of get_videos on the child, including the child
level sort of line 85 and the implicit iterdir of line 76, which raises when
the child is unreadable), and video files are appended at their iteration
position.  Fuel 0 reports an error; the public wrappers pass enough fuel for
this branch to be unreachable. -/
def getVideosChildren : Nat → VPath → List FSEntry → Except Unit (List VPath)
  | 0, _, _ => Except.error ()
  | _ + 1, _, [] => Except.ok []
  | fuel + 1, path, c :: rest =>
    match (match c with
      | FSEntry.file n =>
        if startsWithDot n then Except.ok []
        else if isVideoFile n then Except.ok [path ++ [n]]
        else Except.ok []
      | FSEntry.dir n readable ccs =>
        if startsWithDot n then Except.ok []
        else if !readable then Except.error ()
        else
          match getVideosChildren fuel (path ++ [n]) ccs with
          | Except.ok vs => Except.ok (insertionSortB pathLeB vs)
          | Except.error e => Except.error e) with
    | Except.error _ => Except.error ()
    | Except.ok v =>
      match getVideosChildren fuel path rest with
      | Except.error _ => Except.error ()
      | Except.ok more => Except.ok (v ++ more)

/-- Embeds get_videos (player.py lines 72-86) on a directory given by its
path, its readable flag and its children: iterdir raises when the directory
is unreadable (no handler in the source, so the error propagates), otherwise
the children are processed and the accumulated list - local files together
with everything collected from subdirectories - is sorted by basename
(line 85). -/
def get_videos (path : VPath) (readable : Bool) (children : List FSEntry) :
    Except Unit (List VPath) :=
  if !readable then Except.error ()
  else
    match getVideosChildren (entryListSize children) path children with
    | Except.ok vs => Except.ok (insertionSortB pathLeB vs)
    | Except.error e => Except.error e

/-- Embeds the inner loop of find_show_directories (player.py lines 95-107)
over the sorted children of a valid root: files and hidden entries fail
is_valid_directory and are skipped, a child whose lowercased name contains
"season" is skipped (line 98), otherwise the child is probed recursively
(find_show_directories([subdirectory]), which re-checks validity, then lists
the child's sorted children - raising if the child is unreadable); if the
probe finds nested shows they are taken, else the child is emitted iff
get_videos finds videos in it. -/
def findShowsChildren : Nat → VPath → List FSEntry → Except Unit (List (VPath × FSEntry))
  | 0, _, _ => Except.error ()
  | _ + 1, _, [] => Except.ok []
  | fuel + 1, path, c :: rest =>
    match (match c with
      | FSEntry.file _ => Except.ok []
      | FSEntry.dir n readable ccs =>
        if startsWithDot n then Except.ok []
        else if strContainsB (strLower n) "season" then Except.ok []
        else
          match (if !readable then Except.error ()
                 else findShowsChildren fuel (path ++ [n]) (insertionSortB entryLeB ccs)) with
          | Except.error _ => Except.error ()
          | Except.ok nested =>
            if !nested.isEmpty then Except.ok nested
            else
              match get_videos (path ++ [n]) readable ccs with
              | Except.error _ => Except.error ()
              | Except.ok vids =>
                if vids.isEmpty then Except.ok []
                else Except.ok [(path ++ [n], c)]) with
    | Except.error _ => Except.error ()
    | Except.ok contrib =>
      match findShowsChildren fuel path rest with
      | Except.error _ => Except.error ()
      | Except.ok more => Except.ok (contrib ++ more)

/-- Processing of one root by find_show_directories (player.py lines 91-94):
a root that fails is_valid_directory (not a directory, or hidden) is skipped
silently; otherwise its children are listed (raising when unreadable) and
iterated in sorted order. -/
def findShowsRoot (parent : VPath) (e : FSEntry) : Except Unit (List (VPath × FSEntry)) :=
  match e with
  | FSEntry.file _ => Except.ok []
  | FSEntry.dir n readable cs =>
    if startsWithDot n then Except.ok []
    else if !readable then Except.error ()
    else findShowsChildren (entryListSize cs) (parent ++ [n]) (insertionSortB entryLeB cs)

/-- Embeds find_show_directories (player.py lines 89-108).  A root is given
as the path of its parent together with its entry; shows are returned as
their full path paired with their directory entry (in the source only the
path is returned and the entry is re-read from disk later; the model carries
the entry, which is what the path denotes). -/
def find_show_directories : List (VPath × FSEntry) → Except Unit (List (VPath × FSEntry))
  | [] => Except.ok []
  | (parent, e) :: rest =>
    match findShowsRoot parent e with
    | Except.error _ => Except.error ()
    | Except.ok shows =>
      match find_show_directories rest with
      | Except.error _ => Except.error ()
      | Except.ok more => Except.ok (shows ++ more)

/-- Embeds get_show_name (player.py lines 53-69).  path.parents for an
absolute path with components [c1, ..., ck] yields names ck-1, ..., c1 and
finally the empty name of the root, which the truthiness test of line 66
always rejects; the fallback of line 69 is the immediate parent's name. -/
def get_show_name (path : VPath) : String :=
  match (path.dropLast.reverse).find? (fun n => !(n == "") && !(isGenericName n)) with
  | some n => n
  | none => (path.dropLast.reverse).headD ""

/-- Embeds the Playlist dataclass of player.py lines 147-151. -/
structure Playlist where
  show_name : String
  videos : List VPath
  progress : Nat
  deriving DecidableEq

/-- The two exceptions next_video can raise: the explicit ValueError of
line 155 for an empty playlist, and the IndexError of the subscript on
line 156 when the cursor is out of range. -/
inductive PErr : Type where
  | emptyPlaylist
  | indexError
  deriving DecidableEq

/-- Embeds Playlist.next_video (player.py lines 153-158) as a state
transformer: the result (or exception) together with the playlist after the
call.  Both raises happen before the cursor assignment of line 157, so on an
error the playlist is returned unchanged. -/
def next_video (p : Playlist) : Except PErr VPath × Playlist :=
  if p.videos.isEmpty then (Except.error PErr.emptyPlaylist, p)
  else
    match p.videos.get? p.progress with
    | some v =>
      (Except.ok v, Playlist.mk p.show_name p.videos ((p.progress + 1) % p.videos.length))
    | none => (Except.error PErr.indexError, p)

/-- Embeds build_show_playlists (player.py lines 161-177): shows with no
videos are skipped, the rest become playlists with cursor 0 and the name
derived by get_show_name. -/
def build_show_playlists : List (VPath × FSEntry) → Except Unit (List Playlist)
  | [] => Except.ok []
  | (path, e) :: rest =>
    match (match e with
      | FSEntry.file _ => Except.error ()
      | FSEntry.dir _ readable cs => get_videos path readable cs) with
    | Except.error _ => Except.error ()
    | Except.ok vids =>
      if vids.isEmpty then build_show_playlists rest
      else
        match build_show_playlists rest with
        | Except.error _ => Except.error ()
        | Except.ok more => Except.ok (Playlist.mk (get_show_name path) vids 0 :: more)

/-- Placeholder playlist for positional indexing; never read, since the
round-robin index is always below the list length. -/
def dummyPlaylist : Playlist := Playlist.mk "" [] 0

/-- Embeds build_unified_playlist (player.py lines 180-183).
islice(round_robin, cap) pulls cap items from the generator
(show.next_video() for show in cycle(shows)): cycle visits index i mod N on
the i-th pull and next_video mutates that playlist in place (modelled by
List.set); cycle of an empty list is an exhausted generator, so islice
returns [] for empty shows. -/
def buildUnifiedAux : List Playlist → Nat → Nat → Except PErr (List VPath)
  | _, _, 0 => Except.ok []
  | ps, i, cap + 1 =>
    if ps.isEmpty then Except.ok []
    else
      match next_video (ps.getD (i % ps.length) dummyPlaylist) with
      | (Except.ok v, advanced) =>
        match buildUnifiedAux (ps.set (i % ps.length) advanced) (i + 1) cap with
        | Except.ok rest => Except.ok (v :: rest)
        | Except.error e => Except.error e
      | (Except.error e, _) => Except.error e

/-- build_unified_playlist with an explicit length cap (the source default is
100; the claims quantify over the cap). -/
def build_unified_playlist (shows : List Playlist) (playlist_length : Nat) :
    Except PErr (List VPath) :=
  buildUnifiedAux shows 0 playlist_length

/-- Instrumented variant of buildUnifiedAux that also records, for every
emitted video, the index of the playlist it was drawn from.  Identical
control flow; build_unified_playlist is its Prod.snd projection. -/
def buildUnifiedTrAux : List Playlist → Nat → Nat → Except PErr (List (Nat × VPath))
  | _, _, 0 => Except.ok []
  | ps, i, cap + 1 =>
    if ps.isEmpty then Except.ok []
    else
      match next_video (ps.getD (i % ps.length) dummyPlaylist) with
      | (Except.ok v, advanced) =>
        match buildUnifiedTrAux (ps.set (i % ps.length) advanced) (i + 1) cap with
        | Except.ok rest => Except.ok ((i % ps.length, v) :: rest)
        | Except.error e => Except.error e
      | (Except.error e, _) => Except.error e

/-- Instrumented build_unified_playlist: each emitted video paired with the
index of the source playlist. -/
def buildUnifiedTr (shows : List Playlist) (cap : Nat) :
    Except PErr (List (Nat × VPath)) :=
  buildUnifiedTrAux shows 0 cap

/-- Calls next_video n times on a playlist, collecting the emitted videos and
the final state; none if any call raises. -/
def runAdvance : Playlist → Nat → Option (List VPath × Playlist)
  | p, 0 => some ([], p)
  | p, n + 1 =>
    match next_video p with
    | (Except.ok v, advanced) =>
      match runAdvance advanced n with
      | some (vs, q) => some (v :: vs, q)
      | none => none
    | (Except.error _, _) => none

/-- One iteration of the main loop of player.py lines 203-206: discovery,
playlist construction, scheduling.  none models an uncaught exception (the
source only catches KeyboardInterrupt). -/
def runPipeline (roots : List (VPath × FSEntry)) (cap : Nat) : Option (List VPath) :=
  match find_show_directories roots with
  | Except.error _ => none
  | Except.ok shows =>
    match build_show_playlists shows with
    | Except.error _ => none
    | Except.ok playlists =>
      match build_unified_playlist playlists cap with
      | Except.error _ => none
      | Except.ok master => some master

/-! Order lemmas for the comparison and the stable sort. -/

theorem charListLeB_total : ∀ (a b : List Char), charListLeB a b = true ∨ charListLeB b a = true := by
  intro a
  induction a with
  | nil => intro b; left; simp [charListLeB]
  | cons x xs ih =>
    intro b
    cases b with
    | nil => right; simp [charListLeB]
    | cons y ys =>
      simp only [charListLeB]
      by_cases hxy : x.toNat = y.toNat
      · rw [if_pos hxy, if_pos hxy.symm]
        exact ih ys
      · rw [if_neg hxy, if_neg (fun h => hxy h.symm)]
        simp only [decide_eq_true_eq]
        omega

theorem charListLeB_trans : ∀ (a b c : List Char),
    charListLeB a b = true → charListLeB b c = true → charListLeB a c = true := by
  intro a
  induction a with
  | nil => intro b c _ _; simp [charListLeB]
  | cons x xs ih =>
    intro b c hab hbc
    cases b with
    | nil => simp [charListLeB] at hab
    | cons y ys =>
      cases c with
      | nil => simp [charListLeB] at hbc
      | cons z zs =>
        simp only [charListLeB] at hab hbc ⊢
        by_cases hxy : x.toNat = y.toNat
        · rw [if_pos hxy] at hab
          by_cases hyz : y.toNat = z.toNat
          · rw [if_pos hyz] at hbc
            rw [if_pos (hxy.trans hyz)]
            exact ih ys zs hab hbc
          · rw [if_neg hyz] at hbc
            have h1 : y.toNat < z.toNat := of_decide_eq_true hbc
            rw [if_neg (by omega : ¬ x.toNat = z.toNat)]
            exact decide_eq_true (by omega)
        · rw [if_neg hxy] at hab
          have h1 : x.toNat < y.toNat := of_decide_eq_true hab
          by_cases hyz : y.toNat = z.toNat
          · rw [if_neg (by omega : ¬ x.toNat = z.toNat)]
            exact decide_eq_true (by omega)
          · rw [if_neg hyz] at hbc
            have h2 : y.toNat < z.toNat := of_decide_eq_true hbc
            rw [if_neg (by omega : ¬ x.toNat = z.toNat)]
            exact decide_eq_true (by omega)

theorem pathLeB_total (p q : VPath) : pathLeB p q = true ∨ pathLeB q p = true :=
  charListLeB_total _ _

theorem pathLeB_trans (p q r : VPath) :
    pathLeB p q = true → pathLeB q r = true → pathLeB p r = true :=
  charListLeB_trans _ _ _

theorem mem_orderedInsertB {α : Type} (le : α → α → Bool) (a x : α) :
    ∀ (l : List α), x ∈ orderedInsertB le a l → x = a ∨ x ∈ l := by
  intro l
  induction l with
  | nil => intro h; simp [orderedInsertB] at h; exact Or.inl h
  | cons b t ih =>
    intro h
    simp only [orderedInsertB] at h
    by_cases hle : le a b = true
    · rw [if_pos hle] at h
      simp only [List.mem_cons] at h ⊢
      tauto
    · rw [if_neg hle] at h
      rcases List.mem_cons.mp h with h1 | h2
      · exact Or.inr (h1 ▸ List.mem_cons_self b t)
      · rcases ih h2 with h3 | h4
        · exact Or.inl h3
        · exact Or.inr (List.mem_cons_of_mem _ h4)

theorem pairwise_orderedInsertB {α : Type} (le : α → α → Bool)
    (htot : ∀ x y, le x y = true ∨ le y x = true)
    (htrans : ∀ x y z, le x y = true → le y z = true → le x z = true)
    (a : α) : ∀ (l : List α), l.Pairwise (fun x y => le x y = true) →
    (orderedInsertB le a l).Pairwise (fun x y => le x y = true) := by
  intro l
  induction l with
  | nil => intro _; simp [orderedInsertB]
  | cons b t ih =>
    intro h
    rcases List.pairwise_cons.mp h with ⟨hb, ht⟩
    simp only [orderedInsertB]
    by_cases hle : le a b = true
    · rw [if_pos hle]
      refine List.pairwise_cons.mpr ⟨?_, h⟩
      intro y hy
      rcases List.mem_cons.mp hy with rfl | hyt
      · exact hle
      · exact htrans a b y hle (hb y hyt)
    · rw [if_neg hle]
      refine List.pairwise_cons.mpr ⟨?_, ih ht⟩
      intro y hy
      rcases mem_orderedInsertB le a y _ hy with heq | hyt
      · rw [heq]
        rcases htot a b with h1 | h2
        · exact absurd h1 hle
        · exact h2
      · exact hb y hyt

theorem pairwise_insertionSortB {α : Type} (le : α → α → Bool)
    (htot : ∀ x y, le x y = true ∨ le y x = true)
    (htrans : ∀ x y z, le x y = true → le y z = true → le x z = true) :
    ∀ (l : List α), (insertionSortB le l).Pairwise (fun x y => le x y = true) := by
  intro l
  induction l with
  | nil => simp [insertionSortB]
  | cons a t ih => exact pairwise_orderedInsertB le htot htrans a _ ih

/-! Round-robin scheduler lemmas. -/

/-- The data-model invariant on a set of playlists (spec section 3): every
playlist holds at least one video and its cursor is in range. -/
def PlaylistInv (ps : List Playlist) : Prop :=
  ∀ p ∈ ps, p.videos ≠ [] ∧ p.progress < p.videos.length

theorem next_video_ok (p : Playlist) (hne : p.videos ≠ [])
    (hlt : p.progress < p.videos.length) :
    next_video p =
      (Except.ok (p.videos.get ⟨p.progress, hlt⟩),
       Playlist.mk p.show_name p.videos ((p.progress + 1) % p.videos.length)) := by
  have hemp : p.videos.isEmpty = false := by
    rw [Bool.eq_false_iff]
    intro hcontra
    exact hne (List.isEmpty_iff.mp hcontra)
  simp only [next_video, hemp, Bool.false_eq_true, if_false, List.get?_eq_get hlt]

theorem trAux_ok : ∀ (cap : Nat) (ps : List Playlist) (i : Nat), ps ≠ [] → PlaylistInv ps →
    ∃ out, buildUnifiedTrAux ps i cap = Except.ok out ∧
      out.map Prod.fst = (List.range cap).map (fun m => (i + m) % ps.length) := by
  intro cap
  induction cap with
  | zero => intro ps i _ _; exact ⟨[], rfl, by simp⟩
  | succ n ih =>
    intro ps i hne hinv
    have hlen : 0 < ps.length := List.length_pos.mpr hne
    have hemp : ps.isEmpty = false := by
      rw [Bool.eq_false_iff]
      intro hcontra
      exact hne (List.isEmpty_iff.mp hcontra)
    have hj : i % ps.length < ps.length := Nat.mod_lt _ hlen
    have hget : ps.getD (i % ps.length) dummyPlaylist = ps.get ⟨i % ps.length, hj⟩ :=
      List.getD_eq_get _ _ hj
    have hmem : ps.get ⟨i % ps.length, hj⟩ ∈ ps := List.get_mem ps _ hj
    obtain ⟨hv, hlt⟩ := hinv _ hmem
    have hnext := next_video_ok (ps.get ⟨i % ps.length, hj⟩) hv hlt
    have hinv2 : PlaylistInv (ps.set (i % ps.length)
        (Playlist.mk (ps.get ⟨i % ps.length, hj⟩).show_name
          (ps.get ⟨i % ps.length, hj⟩).videos
          (((ps.get ⟨i % ps.length, hj⟩).progress + 1) %
            (ps.get ⟨i % ps.length, hj⟩).videos.length))) := by
      intro q hq
      rcases List.mem_or_eq_of_mem_set hq with hq1 | hq2
      · exact hinv q hq1
      · rw [hq2]
        exact ⟨hv, Nat.mod_lt _ (List.length_pos.mpr hv)⟩
    have hne2 : ps.set (i % ps.length)
        (Playlist.mk (ps.get ⟨i % ps.length, hj⟩).show_name
          (ps.get ⟨i % ps.length, hj⟩).videos
          (((ps.get ⟨i % ps.length, hj⟩).progress + 1) %
            (ps.get ⟨i % ps.length, hj⟩).videos.length)) ≠ [] := by
      apply List.ne_nil_of_length_pos
      rw [List.length_set]
      exact hlen
    obtain ⟨out2, hout2, hfst2⟩ := ih _ (i + 1) hne2 hinv2
    refine ⟨(i % ps.length, (ps.get ⟨i % ps.length, hj⟩).videos.get
      ⟨(ps.get ⟨i % ps.length, hj⟩).progress, hlt⟩) :: out2, ?_, ?_⟩
    · simp only [buildUnifiedTrAux, hemp, Bool.false_eq_true, if_false, hget, hnext, hout2]
    · rw [List.length_set] at hfst2
      have hlist : ∀ a ∈ List.range n,
          ((fun m => (i + m) % ps.length) ∘ Nat.succ) a
            = (fun m => (i + 1 + m) % ps.length) a := by
        intro a _
        simp only [Function.comp_apply]
        have hswap : i + Nat.succ a = i + 1 + a := by omega
        rw [hswap]
      rw [List.map_cons, hfst2, List.range_succ_eq_map, List.map_cons, List.map_map,
        List.map_congr_left hlist]
      simp

theorem buildAux_eq_trAux : ∀ (cap : Nat) (ps : List Playlist) (i : Nat),
    buildUnifiedAux ps i cap = Except.map (List.map Prod.snd) (buildUnifiedTrAux ps i cap) := by
  intro cap
  induction cap with
  | zero => intro ps i; rfl
  | succ n ih =>
    intro ps i
    by_cases hemp : ps.isEmpty = true
    · simp [buildUnifiedAux, buildUnifiedTrAux, hemp, Except.map]
    · rw [Bool.not_eq_true] at hemp
      rcases hnv : next_video ((ps[i % ps.length]?).getD dummyPlaylist) with ⟨res, adv⟩
      cases res with
      | ok v =>
        rcases htr : buildUnifiedTrAux (ps.set (i % ps.length) adv) (i + 1) n with e | rest
        · simp [buildUnifiedAux, buildUnifiedTrAux, hemp, hnv, htr, ih, Except.map]
        · simp [buildUnifiedAux, buildUnifiedTrAux, hemp, hnv, htr, ih, Except.map]
      | error e => simp [buildUnifiedAux, buildUnifiedTrAux, hemp, hnv, Except.map]

theorem map_mod_range (N : Nat) : ∀ (k : Nat),
    (List.range (k * N)).map (fun m => m % N) = (List.replicate k (List.range N)).flatten := by
  intro k
  induction k with
  | zero => simp
  | succ n ih =>
    rw [Nat.succ_mul, List.range_add, List.map_append, ih, List.replicate_succ',
      List.flatten_append]
    congr 1
    have hmod : ∀ x ∈ List.range N, ((fun m => m % N) ∘ fun x => n * N + x) x = x := by
      intro x hx
      have hxN := List.mem_range.mp hx
      simp only [Function.comp_apply]
      rw [Nat.mul_comm, Nat.mul_add_mod]
      exact Nat.mod_eq_of_lt hxN
    rw [List.map_map, List.map_congr_left hmod]
    simp

theorem count_flatten_replicate (N k j : Nat) (hj : j < N) :
    ((List.replicate k (List.range N)).flatten).count j = k := by
  induction k with
  | zero => simp
  | succ n ih =>
    rw [List.replicate_succ, List.flatten_cons, List.count_append, ih,
      List.count_eq_one_of_mem (List.nodup_range N) (List.mem_range.mpr hj)]
    omega

theorem map_mod_range' (N : Nat) (hN : 0 < N) (s : Nat) :
    (List.range' s N).map (fun m => m % N)
      = List.range' (s % N) (N - s % N) ++ List.range (s % N) := by
  have ha : s % N < N := Nat.mod_lt _ hN
  have h1 : (List.range' s N).map (fun m => m % N)
      = (List.range' (s % N) N).map (fun m => m % N) := by
    rw [List.range'_eq_map_range, List.range'_eq_map_range, List.map_map, List.map_map]
    apply List.map_congr_left
    intro t ht
    simp only [Function.comp_apply]
    rw [Nat.add_mod s t N, Nat.add_mod (s % N) t N, Nat.mod_mod_of_dvd s (dvd_refl N)]
  rw [h1]
  have hsplit : List.range' (s % N) N
      = List.range' (s % N) (N - s % N) ++ List.range' N (s % N) := by
    have happ := List.range'_append (s % N) (N - s % N) (s % N) 1
    rw [show s % N + 1 * (N - s % N) = N by omega] at happ
    rw [show s % N + (N - s % N) = N by omega] at happ
    exact happ.symm
  rw [hsplit, List.map_append]
  congr 1
  · have heq : ∀ x ∈ List.range' (s % N) (N - s % N), (fun m => m % N) x = x := by
      intro x hx
      have hb := List.mem_range'_1.mp hx
      exact Nat.mod_eq_of_lt (by omega)
    rw [List.map_congr_left heq]
    simp
  · rw [List.range'_eq_map_range, List.map_map]
    have heq : ∀ t ∈ List.range (s % N), ((fun m => m % N) ∘ fun x => N + x) t = t := by
      intro t ht
      have htA := List.mem_range.mp ht
      simp only [Function.comp_apply]
      rw [Nat.add_mod_left]
      exact Nat.mod_eq_of_lt (by omega)
    rw [List.map_congr_left heq]
    simp

theorem count_mod_window (N s j : Nat) (hN : 0 < N) (hj : j < N) :
    ((List.range' s N).map (fun m => m % N)).count j = 1 := by
  have ha : s % N < N := Nat.mod_lt _ hN
  rw [map_mod_range' N hN s, List.count_append]
  by_cases hcase : s % N ≤ j
  · have h1 : (List.range' (s % N) (N - s % N)).count j = 1 :=
      List.count_eq_one_of_mem (List.nodup_range' _ _)
        (List.mem_range'_1.mpr ⟨hcase, by omega⟩)
    have h2 : (List.range (s % N)).count j = 0 :=
      List.count_eq_zero_of_not_mem (by rw [List.mem_range]; omega)
    omega
  · have h1 : (List.range' (s % N) (N - s % N)).count j = 0 :=
      List.count_eq_zero_of_not_mem (by rw [List.mem_range'_1]; omega)
    have h2 : (List.range (s % N)).count j = 1 :=
      List.count_eq_one_of_mem (List.nodup_range _) (List.mem_range.mpr (by omega))
    omega

theorem drop_take_map_mod (N k s : Nat) (hs : s + N ≤ k * N) :
    (((List.range (k * N)).map (fun m => m % N)).drop s).take N
      = (List.range' s N).map (fun m => m % N) := by
  rw [← List.map_drop, ← List.map_take]
  congr 1
  have h1 : List.range (k * N) = List.range' 0 s ++ List.range' s (k * N - s) := by
    rw [List.range_eq_range']
    have happ := List.range'_append 0 s (k * N - s) 1
    rw [show 0 + 1 * s = s by omega] at happ
    rw [show k * N - s + s = k * N by omega] at happ
    exact happ.symm
  rw [h1, List.drop_left' (List.length_range' _ _ _)]
  have h2 : List.range' s (k * N - s)
      = List.range' s N ++ List.range' (s + N) (k * N - s - N) := by
    have happ := List.range'_append s N (k * N - s - N) 1
    rw [show s + 1 * N = s + N by omega] at happ
    rw [show k * N - s - N + N = k * N - s by omega] at happ
    exact happ.symm
  rw [h2, List.take_left' (List.length_range' _ _ _)]

/-! Claims about the Playlist type and the round-robin scheduler. -/

/-- Claim C6: for a non-empty list of N playlists, each holding at least one
video and with its cursor in range, and a cap of k * N with k at least 1,
build_unified_playlist succeeds with exactly k * N videos.  The instrumented
scheduler buildUnifiedTr - of which build_unified_playlist is exactly the
Prod.snd projection, as the second conjunct states - tags every emitted video
with the index of the playlist it was drawn from: every playlist index below
N occurs exactly k times overall, and exactly once in every contiguous window
of N consecutive entries, at every offset s at which such a window fits
inside the output. -/
theorem c6_round_robin_fairness (shows : List Playlist) (k : Nat)
    (hne : shows ≠ []) (hk : 1 ≤ k) (hinv : PlaylistInv shows) :
    ∃ out : List (Nat × VPath),
      buildUnifiedTr shows (k * shows.length) = Except.ok out ∧
      build_unified_playlist shows (k * shows.length) = Except.ok (out.map Prod.snd) ∧
      out.length = k * shows.length ∧
      (∀ j < shows.length, (out.map Prod.fst).count j = k) ∧
      (∀ s, s + shows.length ≤ k * shows.length → ∀ j < shows.length,
        (((out.map Prod.fst).drop s).take shows.length).count j = 1) := by
  obtain ⟨out, hout, hfst⟩ := trAux_ok (k * shows.length) shows 0 hne hinv
  have hfst2 : out.map Prod.fst
      = (List.range (k * shows.length)).map (fun m => m % shows.length) := by
    rw [hfst]
    apply List.map_congr_left
    intro m _
    rw [Nat.zero_add]
  refine ⟨out, hout, ?_, ?_, ?_, ?_⟩
  · show buildUnifiedAux shows 0 (k * shows.length) = _
    rw [buildAux_eq_trAux, hout]
    rfl
  · have hlen := congrArg List.length hfst2
    simpa using hlen
  · intro j hj
    rw [hfst2, map_mod_range shows.length k]
    exact count_flatten_replicate shows.length k j hj
  · intro s hs j hj
    rw [hfst2, drop_take_map_mod shows.length k s hs]
    exact count_mod_window shows.length s j (List.length_pos.mpr hne) hj

/-- Two concrete playlists used to witness claim C6. -/
def c6Shows : List Playlist :=
  [Playlist.mk "A" [["a1"], ["a2"]] 0, Playlist.mk "B" [["b1"]] 0]

/-- Witness for claim C6 at two concrete playlists and k = 2. -/
theorem c6_round_robin_fairness_witness :
    ∃ out : List (Nat × VPath),
      buildUnifiedTr c6Shows (2 * c6Shows.length) = Except.ok out ∧
      build_unified_playlist c6Shows (2 * c6Shows.length) = Except.ok (out.map Prod.snd) ∧
      out.length = 2 * c6Shows.length ∧
      (∀ j < c6Shows.length, (out.map Prod.fst).count j = 2) ∧
      (∀ s, s + c6Shows.length ≤ 2 * c6Shows.length → ∀ j < c6Shows.length,
        (((out.map Prod.fst).drop s).take c6Shows.length).count j = 1) :=
  c6_round_robin_fairness c6Shows 2 (by decide) (by decide) (by unfold PlaylistInv; decide)

/-- Claim C7: next_video returns the video at the current cursor and then
advances the cursor by one modulo the playlist length; in particular a
playlist with videos a, b, c and cursor 0 advanced five times yields
a, b, c, a, b, ending with cursor 2. -/
theorem c7_next_video_advances :
    (∀ (p : Playlist) (hne : p.videos ≠ []) (hlt : p.progress < p.videos.length),
      next_video p =
        (Except.ok (p.videos.get ⟨p.progress, hlt⟩),
         Playlist.mk p.show_name p.videos ((p.progress + 1) % p.videos.length))) ∧
    runAdvance (Playlist.mk "show" [["a"], ["b"], ["c"]] 0) 5 =
      some ([["a"], ["b"], ["c"], ["a"], ["b"]], Playlist.mk "show" [["a"], ["b"], ["c"]] 2) :=
  ⟨fun p hne hlt => next_video_ok p hne hlt, by decide⟩

/-- Witness for claim C7 at a concrete playlist with cursor 1. -/
theorem c7_next_video_advances_witness :
    next_video (Playlist.mk "s" [["x"], ["y"]] 1) =
      (Except.ok (((Playlist.mk "s" [["x"], ["y"]] 1).videos).get
        ⟨(Playlist.mk "s" [["x"], ["y"]] 1).progress, by decide⟩),
       Playlist.mk "s" [["x"], ["y"]] ((1 + 1) % 2)) :=
  c7_next_video_advances.1 (Playlist.mk "s" [["x"], ["y"]] 1) (by decide) (by decide)

/-- Claim C8: when a playlist has at least one video and its cursor is in
range, the cursor is again in range after next_video, the only mutating
operation, so indexing the videos by the cursor stays in bounds. -/
theorem c8_cursor_invariant (p : Playlist) (hne : p.videos ≠ [])
    (hlt : p.progress < p.videos.length) :
    (next_video p).2.progress < (next_video p).2.videos.length := by
  rw [next_video_ok p hne hlt]
  show (p.progress + 1) % p.videos.length < p.videos.length
  exact Nat.mod_lt _ (List.length_pos.mpr hne)

/-- Witness for claim C8 at a concrete one-video playlist. -/
theorem c8_cursor_invariant_witness :
    (next_video (Playlist.mk "s" [["a"]] 0)).2.progress <
      (next_video (Playlist.mk "s" [["a"]] 0)).2.videos.length :=
  c8_cursor_invariant (Playlist.mk "s" [["a"]] 0) (by decide) (by decide)

/-- Claim C9: next_video raises the empty-playlist ValueError exactly when
the playlist has zero videos; with at least one video and the cursor in range
it returns a video and raises nothing; and whenever it raises, the playlist
state is unchanged (both raises happen before the cursor assignment of
player.py line 157). -/
theorem c9_next_video_errors (p : Playlist) :
    ((next_video p).1 = Except.error PErr.emptyPlaylist ↔ p.videos = []) ∧
    (p.videos ≠ [] → p.progress < p.videos.length →
      ∃ v, (next_video p).1 = Except.ok v) ∧
    (∀ e, (next_video p).1 = Except.error e → (next_video p).2 = p) := by
  refine ⟨⟨?_, ?_⟩, ?_, ?_⟩
  · intro h
    by_contra hne
    rcases Nat.lt_or_ge p.progress p.videos.length with hlt | hge
    · rw [next_video_ok p hne hlt] at h
      simp at h
    · have hemp : p.videos.isEmpty = false := by
        rw [Bool.eq_false_iff]
        intro hcontra
        exact hne (List.isEmpty_iff.mp hcontra)
      have hq : p.videos[p.progress]? = none := List.getElem?_eq_none hge
      simp [next_video, hemp, hq] at h
  · intro h
    have hemp : p.videos.isEmpty = true := by rw [h]; rfl
    simp [next_video, hemp]
  · intro hne hlt
    exact ⟨_, by rw [next_video_ok p hne hlt]⟩
  · intro e he
    by_cases hemp : p.videos.isEmpty = true
    · simp [next_video, hemp]
    · rw [Bool.not_eq_true] at hemp
      rcases hq : p.videos[p.progress]? with _ | v
      · simp [next_video, hemp, hq]
      · simp [next_video, hemp, hq] at he
  
/-- Witness for claim C9 at a concrete one-video playlist. -/
theorem c9_next_video_errors_witness :
    ∃ v, (next_video (Playlist.mk "s" [["v1.mp4"]] 0)).1 = Except.ok v :=
  (c9_next_video_errors (Playlist.mk "s" [["v1.mp4"]] 0)).2.1 (by decide) (by decide)

/-- Claim C10: on the empty list of playlists, build_unified_playlist returns
the empty sequence for every cap, raising nothing (cycle of an empty list is
an exhausted generator, so islice stops immediately). -/
theorem c10_empty_playlists (cap : Nat) : build_unified_playlist [] cap = Except.ok [] := by
  cases cap with
  | zero => rfl
  | succ n => rfl

/-! Claims about discovery and enumeration. -/

/-- The spec scenario of claim C1: roots ShowA/Season 1 (directly holding
ep1.mp4 and ep2.mp4) and ShowB (directly holding a.mkv and b.mkv), given as
parent path plus directory entry. -/
def c1Roots : List (VPath × FSEntry) :=
  [(["media", "ShowA"],
    FSEntry.dir "Season 1" true [FSEntry.file "ep1.mp4", FSEntry.file "ep2.mp4"]),
   (["media"],
    FSEntry.dir "ShowB" true [FSEntry.file "a.mkv", FSEntry.file "b.mkv"])]

/-- Claim C1 (counterexample): on the spec scenario with cap 4 the pipeline
does NOT produce the claimed master sequence ShowA/ep1, ShowB/a, ShowA/ep2,
ShowB/b. -/
theorem c1_scenario_counterexample :
    runPipeline c1Roots 4 ≠
      some [["media", "ShowA", "Season 1", "ep1.mp4"], ["media", "ShowB", "a.mkv"],
            ["media", "ShowA", "Season 1", "ep2.mp4"], ["media", "ShowB", "b.mkv"]] := by
  decide

/-- Claim C1 as amended: on that scenario discovery finds no shows and the
master sequence is empty - find_show_directories only ever emits
subdirectories of a root (its loop appends subdirectory, never root_path),
and both roots' immediate children are plain files, which fail
is_valid_directory; video files lying directly inside a configured root are
never discovered or played. -/
theorem c1_scenario_amended :
    find_show_directories c1Roots = Except.ok [] ∧ runPipeline c1Roots 4 = some [] :=
  ⟨rfl, rfl⟩

/-- A root whose only child is a directory named Extras holding a video,
used for claim C2. -/
def c2Roots : List (VPath × FSEntry) :=
  [(["media"], FSEntry.dir "Shows" true [FSEntry.dir "Extras" true [FSEntry.file "x.mp4"]])]

/-- Claim C2 (counterexample): a child directory named Extras - whose name
contains a token of the organizational set - IS probed and emitted as a show
by the locator, contradicting the claim that every such child is skipped. -/
theorem c2_skip_tokens_counterexample :
    Except.map (List.map Prod.fst) (find_show_directories c2Roots) =
      Except.ok [["media", "Shows", "Extras"]] :=
  rfl

/-- Claim C2 as amended: discovery filters only the token season (player.py
line 98): a child directory whose lowercased name contains season is skipped
outright - it is never probed and contributes nothing - while the remaining
organizational tokens (disc, extras, specials, bonus, s01..s50) play no role
in discovery and are used only for show-name derivation. -/
theorem c2_season_children_skipped (fuel : Nat) (path : VPath) (n : String)
    (readable : Bool) (ccs rest : List FSEntry)
    (h : strContainsB (strLower n) "season" = true) :
    findShowsChildren (fuel + 1) path (FSEntry.dir n readable ccs :: rest) =
      findShowsChildren fuel path rest := by
  by_cases hd : startsWithDot n = true
  · rcases hres : findShowsChildren fuel path rest with e | more <;>
      simp [findShowsChildren, hd, h, hres]
  · rw [Bool.not_eq_true] at hd
    rcases hres : findShowsChildren fuel path rest with e | more <;>
      simp [findShowsChildren, hd, h, hres]

/-- Witness for the amended claim C2 at a concrete Season 1 child. -/
theorem c2_season_children_skipped_witness :
    findShowsChildren 5 ["r"] [FSEntry.dir "Season 1" true [FSEntry.file "e.mp4"]] =
      findShowsChildren 4 ["r"] [] :=
  c2_season_children_skipped 4 ["r"] "Season 1" true [FSEntry.file "e.mp4"] [] (by decide)

/-- The directory contents of claim C3: a file b.mp4 next to a subdirectory
a that contains z2.mp4. -/
def c3Input : List FSEntry :=
  [FSEntry.file "b.mp4", FSEntry.dir "a" true [FSEntry.file "z2.mp4"]]

/-- Claim C3 (counterexample): for a directory holding file b.mp4 and
subdirectory a containing z2.mp4, get_videos returns b.mp4 first - not the
claimed traversal order a/z2.mp4, b.mp4 in which nested videos keep the
position of their parent directory. -/
theorem c3_traversal_order_counterexample :
    get_videos ["r"] true c3Input =
      Except.ok [["r", "b.mp4"], ["r", "a", "z2.mp4"]] ∧
    get_videos ["r"] true c3Input ≠
      Except.ok [["r", "a", "z2.mp4"], ["r", "b.mp4"]] := by
  have h1 : get_videos ["r"] true c3Input =
      Except.ok [["r", "b.mp4"], ["r", "a", "z2.mp4"]] := rfl
  refine ⟨h1, fun hcontra => ?_⟩
  rw [h1] at hcontra
  exact absurd (Except.ok.inj hcontra) (by decide)

/-- Claim C3 as amended: every successful result of get_videos is ordered by
basename - line 85 of player.py re-sorts the accumulated list (local files
together with everything collected from subdirectories) at every level, so
the output is globally re-sorted by basename instead of keeping traversal
positions. -/
theorem c3_output_sorted_by_basename (path : VPath) (readable : Bool)
    (cs : List FSEntry) (l : List VPath)
    (h : get_videos path readable cs = Except.ok l) :
    l.Pairwise (fun p q => pathLeB p q = true) := by
  unfold get_videos at h
  cases readable with
  | false => exact Except.noConfusion h
  | true =>
    rcases hres : getVideosChildren (entryListSize cs) path cs with e | vs
    · rw [hres] at h
      exact Except.noConfusion h
    · rw [hres] at h
      have h2 : Except.ok (insertionSortB pathLeB vs) = Except.ok l := h
      have hl : insertionSortB pathLeB vs = l := Except.ok.inj h2
      rw [← hl]
      exact pairwise_insertionSortB pathLeB pathLeB_total pathLeB_trans vs

/-- Witness for the amended claim C3 at the concrete directory of the
counterexample. -/
theorem c3_output_sorted_by_basename_witness :
    ([["r", "b.mp4"], ["r", "a", "z2.mp4"]] : List VPath).Pairwise
      (fun p q => pathLeB p q = true) :=
  c3_output_sorted_by_basename ["r"] true c3Input
    [["r", "b.mp4"], ["r", "a", "z2.mp4"]] rfl

/-- The failing input of claim C4: a root Media containing ShowX, which
contains Season 1, which contains ep1.mp4. -/
def c4Roots : List (VPath × FSEntry) :=
  [([], FSEntry.dir "Media" true
      [FSEntry.dir "ShowX" true [FSEntry.dir "Season 1" true [FSEntry.file "ep1.mp4"]]])]

/-- Claim C4 (code bug): on Media/ShowX/Season 1/ep1.mp4 discovery yields
exactly one show, ShowX, but the playlist built for it is displayed as
Media - the name of the configured root - not ShowX: get_show_name iterates
path.parents, which starts at the immediate parent and never considers the
show directory itself, contradicting its own docstring (the first
non-generic folder in the path, searching upwards) and the spec's stated
property that the display name is the show folder's name. -/
theorem c4_show_name_bug :
    Except.map (List.map Prod.fst) (find_show_directories c4Roots) =
      Except.ok [["Media", "ShowX"]] ∧
    build_show_playlists [(["Media", "ShowX"],
        FSEntry.dir "ShowX" true [FSEntry.dir "Season 1" true [FSEntry.file "ep1.mp4"]])] =
      Except.ok [Playlist.mk "Media" [["Media", "ShowX", "Season 1", "ep1.mp4"]] 0] ∧
    get_show_name ["Media", "ShowX"] = "Media" ∧
    "Media" ≠ "ShowX" :=
  ⟨rfl, rfl, rfl, by decide⟩

/-- Claim C5 (counterexample): get_videos on a directory whose listing raises
an access error surfaces the error instead of returning the empty
sequence. -/
theorem c5_error_swallowing_counterexample :
    get_videos ["r"] false [FSEntry.file "v.mp4"] = Except.error () ∧
    (get_videos ["r"] false [FSEntry.file "v.mp4"]).toOption ≠ some ([] : List VPath) :=
  ⟨rfl, by decide⟩

/-- Claim C5 as amended: get_videos performs no error handling - player.py
lines 72-86 contain no try/except - so an access error during enumeration
propagates to the caller: listing a readable directory whose first entry is
an unreadable, non-hidden subdirectory raises instead of treating that
subtree as empty. -/
theorem c5_errors_propagate (path : VPath) (n : String) (ccs rest : List FSEntry)
    (h : startsWithDot n = false) :
    get_videos path true (FSEntry.dir n false ccs :: rest) = Except.error () := by
  have hs : entryListSize (FSEntry.dir n false ccs :: rest)
      = (entrySize (FSEntry.dir n false ccs) + entryListSize rest) + 1 := by
    simp [entryListSize]
    omega
  unfold get_videos
  rw [hs]
  simp [getVideosChildren, h]

/-- Witness for the amended claim C5 at a concrete unreadable
subdirectory. -/
theorem c5_errors_propagate_witness :
    get_videos ["r"] true [FSEntry.dir "locked" false [], FSEntry.file "v.mp4"] =
      Except.error () :=
  c5_errors_propagate ["r"] "locked" [] [FSEntry.file "v.mp4"] (by decide)

/-- Witness for claim C10 at a concrete cap. -/
theorem c10_empty_playlists_witness : build_unified_playlist [] 7 = Except.ok [] :=
  c10_empty_playlists 7
